import Mathlib

/-!
Verification of the action-routing layer of the oncallninja-integrations
repository (`oncallninja_integrations/action_router.py`), as a shallow
embedding in Lean 4.  The data model follows the Python source: parameter
classification performed by the `action` decorator, the registry as an
insertion-ordered association list, `execute_action` with its in-place
mutation of the caller's parameter dictionary modelled by explicit state
passing, and `available_actions`.
-/

/-- Python runtime values, as far as the router manipulates them.  The router
never inspects a value; it only stores, forwards, and inserts the null value
`PyVal.none` (Python `None`). -/
inductive PyVal where
  | none
  | bool (b : Bool)
  | int (n : Int)
  | str (s : String)
  deriving DecidableEq

/-- A Python type annotation as far as `typing.get_origin` distinguishes them:
absent (`inspect.Parameter.empty`), a bare unsubscripted type such as `str`,
`Optional[X]` (which Python normalizes to `Union[X, None]`), some other
`Union[A, B]`, or a subscripted generic such as `List[int]` whose origin is the
class named by `origin`. -/
inductive Ann where
  | empty
  | plain (tyName : String)
  | optionalOf (inner : String)
  | unionOf (a b : String)
  | generic (origin : String) (arg : String)
  deriving DecidableEq

/-- Possible results of `typing.get_origin`: the Python value `None`, the
special form `typing.Union`, or an origin class (e.g. `list`, `dict`). -/
inductive OriginVal where
  | pyNone
  | unionForm
  | cls (origin : String)
  deriving DecidableEq

/-- `typing.get_origin` applied to an annotation: `None` for an absent or
unsubscripted annotation, `typing.Union` for `Optional[X]`/`Union[...]`
(Python rewrites `Optional[X]` to `Union[X, None]`), and the origin class for
any other subscripted generic. -/
def get_origin : Ann → OriginVal
  | Ann.empty => OriginVal.pyNone
  | Ann.plain _ => OriginVal.pyNone
  | Ann.optionalOf _ => OriginVal.unionForm
  | Ann.unionOf _ _ => OriginVal.unionForm
  | Ann.generic o _ => OriginVal.cls o

/-- The membership test `get_origin(param.annotation) in {Optional, None}` from
the source.  `typing.Optional` is a bare special form that `get_origin` never
returns (a subscripted `Optional[X]` has origin `typing.Union`, and
`typing.Union` is a different object from `typing.Optional`), so the test
succeeds exactly when `get_origin` yields Python `None`. -/
def originInOptionalNoneSet : OriginVal → Bool
  | OriginVal.pyNone => true
  | OriginVal.unionForm => false
  | OriginVal.cls _ => false

/-- One formal parameter of a Python method, as seen by `inspect.signature`:
its name, its declared annotation, and its default value
(`Option.none` models `inspect.Parameter.empty`, i.e. no default). -/
structure Param where
  name : String
  ann : Ann
  default : Option PyVal
  deriving DecidableEq

/-- A Python `dict` keyed by strings, as an insertion-ordered association
list.  Used both for the request parameters and for keyword arguments. -/
abbrev Params := List (String × PyVal)

/-- Python `dict` lookup (`d[k]` / `d.get(k)`): first entry with the key. -/
def lookupKey {α : Type} : List (String × α) → String → Option α
  | [], _ => Option.none
  | kv :: rest, k => if kv.1 = k then Option.some kv.2 else lookupKey rest k

/-- Python `k in d` on a dict. -/
def dictContains (d : Params) (k : String) : Bool :=
  (lookupKey d k).isSome

/-- Python `d[k] = v` on a dict: overwrite in place if the key is present,
otherwise append at the end (insertion order). -/
def dictInsert : Params → String → PyVal → Params
  | [], k, v => [(k, v)]
  | kv :: rest, k, v =>
      if kv.1 = k then (k, v) :: rest else kv :: dictInsert rest k v

/-- The wrapper produced by the `action` decorator: the marker metadata
(`_action_name`, `_description`), the parameter classification computed at
marking time (`_all_params`, `_required_params`, `_optional_params`), and the
wrapped callable.  The callable takes keyword arguments and either returns a
value (`Except.ok`) or raises an exception whose string form is the message
(`Except.error`). -/
structure ActionMethod where
  action_name : String
  description : String
  all_params : List String
  required_params : List String
  optional_params : List String
  call : Params → Except String PyVal

/-- The `action(name, description)` decorator applied to a method.
`func_name` is `func.__name__`, `sig` is the ordered parameter list of
`inspect.signature(func)` (whose head is the implicit `self`, skipped by the
`[1:]` slices in the source), and `func` the wrapped callable.  Python's
`name or func.__name__` treats both `None` and the empty string as absent. -/
def action (name : Option String) (description : String) (func_name : String)
    (sig : List Param) (func : Params → Except String PyVal) : ActionMethod :=
  { action_name :=
      match name with
      | Option.some n => if n = "" then func_name else n
      | Option.none => func_name
    description := description
    all_params := (sig.drop 1).map (fun p => p.name)
    required_params :=
      ((sig.drop 1).filter (fun p =>
        p.default.isNone && originInOptionalNoneSet (get_origin p.ann))).map
        (fun p => p.name)
    optional_params :=
      ((sig.drop 1).filter (fun p =>
        !(originInOptionalNoneSet (get_origin p.ann)))).map (fun p => p.name)
    call := func }

/-- The registry `self._actions`: a dict from action name to bound method. -/
abbrev Registry := List (String × ActionMethod)

/-- The result envelope of `execute_action`:
`{"status": "success", "data": ...}` or `{"status": "error", "message": ...}`. -/
inductive ActionResult where
  | success (data : PyVal)
  | error (message : String)
  deriving DecidableEq

/-- Lines 27-29 of the source: compute the optional parameters missing from
`params` and assign `params[p] = None` for each, mutating `params`. -/
def filledParams (m : ActionMethod) (params : Params) : Params :=
  (m.optional_params.filter (fun p => !(dictContains params p))).foldl
    (fun ps p => dictInsert ps p PyVal.none) params

/-- Line 32 of the source: the required parameters still missing from the
(already optional-filled) `params`. -/
def missingRequired (m : ActionMethod) (params : Params) : List String :=
  m.required_params.filter (fun p => !(dictContains (filledParams m params) p))

/-- Line 40 of the source: the keyword arguments actually passed to the
method, `{k: params[k] for k in params if k in action_method._all_params}`
computed over the optional-filled `params`. -/
def callArgs (m : ActionMethod) (params : Params) : Params :=
  (filledParams m params).filter (fun kv => m.all_params.contains kv.1)

/-- `ActionRouter.execute_action`.  The caller's `params` dict is mutated in
place by the optional-filling step, so the embedding returns the result
envelope together with the final state of that dict.  The only statement in
the `try` block that can raise is the invocation of the method itself; a
raised exception `e` (`Except.error`) is caught and converted to
`{"status": "error", "message": str(e)}`. -/
def execute_action (actions : Registry) (action_nm : String) (params : Params) :
    ActionResult × Params :=
  match lookupKey actions action_nm with
  | Option.none =>
      (ActionResult.error ("Unknown action: " ++ action_nm), params)
  | Option.some action_method =>
      let params2 := filledParams action_method params
      let missing_params := missingRequired action_method params
      if missing_params ≠ [] then
        (ActionResult.error ("Missing required parameters for " ++ action_nm ++
          ": " ++ String.intercalate ", " missing_params), params2)
      else
        match action_method.call (callArgs action_method params) with
        | Except.ok result => (ActionResult.success result, params2)
        | Except.error e => (ActionResult.error e, params2)

/-- One entry of the `params_info` list built by `available_actions`: the dict
`{"name": param}` (flag absent, modelled `optional := false`) or
`{"name": param, "optional": True}` (modelled `optional := true`). -/
structure ParamInfo where
  name : String
  optional : Bool
  deriving DecidableEq

/-- The value of one record of `available_actions`: the description and,
when the action takes parameters, the `params` list (`Option.none` models the
omitted `"params"` key). -/
structure ActionInfo where
  description : String
  params : Option (List ParamInfo)
  deriving DecidableEq

/-- The loop body of `available_actions` for one registered method. -/
def actionInfoOf (m : ActionMethod) : ActionInfo :=
  let params_info := m.all_params.map (fun param =>
    if m.required_params.contains param then
      { name := param, optional := false }
    else
      { name := param, optional := true })
  { description := m.description
    params := if params_info ≠ [] then Option.some params_info else Option.none }

/-- `ActionRouter.available_actions`: one record `{name: {...}}` per registry
entry, in registry order. -/
def available_actions (actions : Registry) : List (String × ActionInfo) :=
  actions.map (fun nm => (nm.1, actionInfoOf nm.2))

/-- The spec's notion of an "explicit optional wrapper type": the annotation
is literally `Optional[X]`.  (Spec wording, for comparison with the source's
classification.) -/
def isOptionalWrapper : Ann → Bool
  | Ann.optionalOf _ => true
  | _ => false

/-- Modelled from the spec: "A parameter is required if it has no default
value AND its declared type is not an explicit optional wrapper type."  For
comparison with the classification the source actually computes. -/
def specRequired (p : Param) : Bool :=
  p.default.isNone && !(isOptionalWrapper p.ann)

/-- Modelled from the spec: "A parameter is optional if its declared type IS
an explicit optional wrapper type, regardless of default - OR if it has a
default value."  For comparison with the classification the source actually
computes. -/
def specOptional (p : Param) : Bool :=
  isOptionalWrapper p.ann || p.default.isSome

theorem lookupKey_dictInsert (d : Params) (k : String) (v : PyVal) (k' : String) :
    lookupKey (dictInsert d k v) k' =
      if k' = k then Option.some v else lookupKey d k' := by
  induction d with
  | nil => simp [dictInsert, lookupKey, eq_comm]
  | cons kv rest ih =>
      by_cases h1 : kv.1 = k
      · by_cases h2 : k' = k
        · simp [dictInsert, lookupKey, h1, h2]
        · have h3 : ¬ k = k' := fun h => h2 h.symm
          simp [dictInsert, lookupKey, h1, h2, h3]
      · by_cases h2 : kv.1 = k'
        · have h3 : ¬ k' = k := fun h => h1 (h ▸ h2)
          simp [dictInsert, lookupKey, h1, h2, h3]
        · simp [dictInsert, lookupKey, h1, h2, ih]

theorem lookupKey_foldl_insertNone (L : List String) (d : Params) (k : String) :
    lookupKey (L.foldl (fun ps p => dictInsert ps p PyVal.none) d) k =
      if k ∈ L then Option.some PyVal.none else lookupKey d k := by
  induction L generalizing d with
  | nil => simp
  | cons p L ih =>
      rw [List.foldl_cons, ih]
      by_cases h1 : k ∈ L
      · simp [h1]
      · by_cases h2 : k = p <;>
          simp [h1, h2, lookupKey_dictInsert]

theorem lookupKey_filterKeys (pred : String → Bool) (d : Params) (k : String) :
    lookupKey (d.filter (fun kv => pred kv.1)) k =
      if pred k then lookupKey d k else Option.none := by
  induction d with
  | nil => simp [lookupKey]
  | cons kv rest ih =>
      by_cases h1 : pred kv.1 <;> by_cases h2 : kv.1 = k
      · subst h2
        simp [List.filter_cons, h1, lookupKey]
      · simp [List.filter_cons, h1, lookupKey, h2, ih]
      · subst h2
        simp [List.filter_cons, h1, lookupKey, ih]
      · simp [List.filter_cons, h1, lookupKey, h2, ih]

theorem lookupKey_filledParams (m : ActionMethod) (params : Params) (k : String) :
    lookupKey (filledParams m params) k =
      if k ∈ m.optional_params ∧ dictContains params k = false then
        Option.some PyVal.none
      else lookupKey params k := by
  unfold filledParams
  rw [lookupKey_foldl_insertNone]
  by_cases h1 : k ∈ m.optional_params <;> by_cases h2 : dictContains params k <;>
    simp [h1, h2, List.mem_filter]

theorem filterKeys_dictInsert (pred : String → Bool) (d : Params) (k : String)
    (v : PyVal) (h : pred k = true) :
    (dictInsert d k v).filter (fun kv => pred kv.1) =
      dictInsert (d.filter (fun kv => pred kv.1)) k v := by
  induction d with
  | nil => simp [dictInsert, List.filter_cons, h]
  | cons kv rest ih =>
      by_cases h1 : kv.1 = k
      · have hp : pred kv.1 = true := by rw [h1]; exact h
        simp [dictInsert, h1, List.filter_cons, h, hp]
      · by_cases h2 : pred kv.1 <;>
          simp [dictInsert, h1, List.filter_cons, h2, ih]

theorem filterKeys_foldl_insertNone (pred : String → Bool) (L : List String)
    (d : Params) (h : ∀ p ∈ L, pred p = true) :
    (L.foldl (fun ps p => dictInsert ps p PyVal.none) d).filter
        (fun kv => pred kv.1) =
      L.foldl (fun ps p => dictInsert ps p PyVal.none)
        (d.filter (fun kv => pred kv.1)) := by
  induction L generalizing d with
  | nil => simp
  | cons p L ih =>
      rw [List.foldl_cons, List.foldl_cons,
        ih _ (fun q hq => h q (List.mem_cons_of_mem _ hq)),
        filterKeys_dictInsert _ _ _ _ (h p (List.mem_cons_self _ _))]

theorem mem_all_action (nm : Option String) (desc func_name : String)
    (sig : List Param) (func : Params → Except String PyVal) (p : String) :
    p ∈ (action nm desc func_name sig func).all_params ↔
      ∃ pm, pm ∈ sig.drop 1 ∧ pm.name = p := by
  simp only [action, List.mem_map]

theorem mem_required_action (nm : Option String) (desc func_name : String)
    (sig : List Param) (func : Params → Except String PyVal) (p : String) :
    p ∈ (action nm desc func_name sig func).required_params ↔
      ∃ pm, pm ∈ sig.drop 1 ∧ pm.name = p ∧ pm.default = Option.none ∧
        originInOptionalNoneSet (get_origin pm.ann) = true := by
  simp only [action, List.mem_map, List.mem_filter, Bool.and_eq_true,
    Option.isNone_iff_eq_none]
  constructor
  · rintro ⟨pm, ⟨hmem, hdef, horig⟩, hname⟩
    exact ⟨pm, hmem, hname, hdef, horig⟩
  · rintro ⟨pm, hmem, hname, hdef, horig⟩
    exact ⟨pm, ⟨hmem, hdef, horig⟩, hname⟩

theorem mem_optional_action (nm : Option String) (desc func_name : String)
    (sig : List Param) (func : Params → Except String PyVal) (p : String) :
    p ∈ (action nm desc func_name sig func).optional_params ↔
      ∃ pm, pm ∈ sig.drop 1 ∧ pm.name = p ∧
        originInOptionalNoneSet (get_origin pm.ann) = false := by
  simp only [action, List.mem_map, List.mem_filter, Bool.not_eq_true']
  constructor
  · rintro ⟨pm, ⟨hmem, horig⟩, hname⟩
    exact ⟨pm, hmem, hname, horig⟩
  · rintro ⟨pm, hmem, hname, horig⟩
    exact ⟨pm, ⟨hmem, horig⟩, hname⟩

theorem required_subset_all (nm : Option String) (desc func_name : String)
    (sig : List Param) (func : Params → Except String PyVal) :
    ∀ p, p ∈ (action nm desc func_name sig func).required_params →
      p ∈ (action nm desc func_name sig func).all_params := by
  intro p hp
  rcases (mem_required_action nm desc func_name sig func p).mp hp with
    ⟨pm, hmem, hname, _, _⟩
  exact (mem_all_action nm desc func_name sig func p).mpr ⟨pm, hmem, hname⟩

theorem optional_subset_all (nm : Option String) (desc func_name : String)
    (sig : List Param) (func : Params → Except String PyVal) :
    ∀ p, p ∈ (action nm desc func_name sig func).optional_params →
      p ∈ (action nm desc func_name sig func).all_params := by
  intro p hp
  rcases (mem_optional_action nm desc func_name sig func p).mp hp with
    ⟨pm, hmem, hname, _⟩
  exact (mem_all_action nm desc func_name sig func p).mpr ⟨pm, hmem, hname⟩

theorem lookupKey_available_actions (actions : Registry) (k : String) :
    lookupKey (available_actions actions) k =
      (lookupKey actions k).map actionInfoOf := by
  induction actions with
  | nil => simp [available_actions, lookupKey]
  | cons nm rest ih =>
      by_cases h : nm.1 = k
      · simp [available_actions, lookupKey, h]
      · simp only [available_actions, List.map_cons, lookupKey, h, if_false]
        simpa [available_actions] using ih

theorem contains_iff_mem (l : List String) (k : String) :
    l.contains k = true ↔ k ∈ l := by
  simp [List.contains, List.elem_iff]

/-- The implicit receiver parameter `self`. -/
def selfParam : Param := { name := "self", ann := Ann.empty, default := Option.none }

/-- A stub method body that returns 7 whatever it is called with. -/
def stubOk : Params → Except String PyVal := fun _ => Except.ok (PyVal.int 7)

/-- Signature of a sample action `doit(self, a: str, b: Optional[str], c: int = 0)`:
the decorator classifies `a` required, `b` optional, `c` neither. -/
def sampleSig : List Param :=
  [selfParam,
   { name := "a", ann := Ann.plain "str", default := Option.none },
   { name := "b", ann := Ann.optionalOf "str", default := Option.none },
   { name := "c", ann := Ann.plain "int", default := Option.some (PyVal.int 0) }]

/-- The sample action, as produced by the decorator. -/
def sampleMethod : ActionMethod :=
  action Option.none "adds things" "doit" sampleSig stubOk

/-- A registry holding just the sample action. -/
def sampleRegistry : Registry := [("doit", sampleMethod)]

/-- Signature `act(self, x: str = "d")`: `x` has a default value and a bare
(unsubscripted) annotation. -/
def cexSig : List Param :=
  [selfParam,
   { name := "x", ann := Ann.plain "str", default := Option.some (PyVal.str "d") }]

/-- The decorated form of `act`. -/
def cexMethod : ActionMethod := action Option.none "demo" "act" cexSig stubOk

/-- A registry holding just `act`. -/
def cexRegistry : Registry := [("act", cexMethod)]

/-- A method that always raises, and its registry. -/
def boomMethod : ActionMethod :=
  action Option.none "always raises" "boom" [selfParam]
    (fun _ => Except.error "kaboom")

/-- Registry holding just the raising method. -/
def boomRegistry : Registry := [("boom", boomMethod)]

/-- C5: for an action name absent from the registry, `execute_action` returns
the envelope `{status: error, message: "Unknown action: <name>"}`, leaves the
params dict untouched, and raises nothing (it is a total function into the
envelope type). -/
theorem C5_unknown_action (actions : Registry) (action_nm : String)
    (params : Params) (h : lookupKey actions action_nm = Option.none) :
    execute_action actions action_nm params =
      (ActionResult.error ("Unknown action: " ++ action_nm), params) := by
  simp [execute_action, h]

/-- Witness for C5 at the sample registry and the unknown name "nope". -/
theorem C5_unknown_action_witness :
    execute_action sampleRegistry "nope" [] =
      (ActionResult.error "Unknown action: nope", []) :=
  (C5_unknown_action sampleRegistry "nope" [] rfl).trans (by decide)

/-- C3: `execute_action` is a total function into the two-variant envelope
type (no exception escapes), and an exception `e` raised by the invoked
method (the only raise site inside the `try` block once the action is
registered and validation passed) is converted into the envelope
`{status: error, message: str(e)}`. -/
theorem C3_no_exception_escapes (actions : Registry) (action_nm : String)
    (params : Params) :
    ((∃ v, (execute_action actions action_nm params).1 = ActionResult.success v)
      ∨ (∃ msg,
          (execute_action actions action_nm params).1 = ActionResult.error msg))
    ∧ (∀ m e, lookupKey actions action_nm = Option.some m →
        missingRequired m params = [] →
        m.call (callArgs m params) = Except.error e →
        (execute_action actions action_nm params).1 = ActionResult.error e) := by
  constructor
  · cases h : (execute_action actions action_nm params).1 with
    | success v => exact Or.inl ⟨v, rfl⟩
    | error msg => exact Or.inr ⟨msg, rfl⟩
  · intro m e hlk hmiss hcall
    simp [execute_action, hlk, hmiss, hcall]

/-- Witness for C3: a method that always raises "kaboom" yields the error
envelope with that message. -/
theorem C3_no_exception_escapes_witness :
    (execute_action boomRegistry "boom" []).1 = ActionResult.error "kaboom" :=
  (C3_no_exception_escapes boomRegistry "boom" []).2 boomMethod "kaboom"
    rfl rfl rfl

/-- C4: when, after optional-filling, at least one required parameter is
still missing, `execute_action` returns the error envelope listing all the
missing required names comma-joined, and the underlying callable is never
consulted: any registry entry carrying the same metadata with an arbitrary
replacement body produces the same error. -/
theorem C4_missing_required (actions : Registry) (action_nm : String)
    (params : Params) (m : ActionMethod)
    (hlk : lookupKey actions action_nm = Option.some m)
    (hmiss : missingRequired m params ≠ []) :
    (execute_action actions action_nm params).1 =
      ActionResult.error ("Missing required parameters for " ++ action_nm ++
        ": " ++ String.intercalate ", " (missingRequired m params))
    ∧ ∀ (g : Params → Except String PyVal) (actions2 : Registry),
        lookupKey actions2 action_nm = Option.some { m with call := g } →
        (execute_action actions2 action_nm params).1 =
          ActionResult.error ("Missing required parameters for " ++ action_nm ++
            ": " ++ String.intercalate ", " (missingRequired m params)) := by
  constructor
  · simp [execute_action, hlk, hmiss]
  · intro g actions2 hlk2
    have hmiss2 : missingRequired { m with call := g } params =
        missingRequired m params := rfl
    simp [execute_action, hlk2, hmiss2, hmiss]

/-- Witness for C4: calling the sample action with an empty params map
reports the missing required parameter `a` and, with the body swapped for
one that would succeed, still reports it (the body is not invoked). -/
theorem C4_missing_required_witness :
    (execute_action sampleRegistry "doit" []).1 =
      ActionResult.error "Missing required parameters for doit: a"
    ∧ (execute_action [("doit", { sampleMethod with call := stubOk })]
        "doit" []).1 =
      ActionResult.error "Missing required parameters for doit: a" := by
  have h := C4_missing_required sampleRegistry "doit" [] sampleMethod rfl
    (by decide)
  exact ⟨h.1.trans (by decide),
    (h.2 stubOk [("doit", { sampleMethod with call := stubOk })] rfl).trans
      (by decide)⟩

/-- C10: for a registered action, `execute_action` mutates the caller's
params dict: its final state is exactly the optional-filled dict, in which
every optional parameter absent from the request is bound to `None` and every
other key keeps its original binding - and this holds in every branch,
including the ones returning an error envelope. -/
theorem C10_params_mutated_in_place (actions : Registry) (action_nm : String)
    (params : Params) (m : ActionMethod)
    (hlk : lookupKey actions action_nm = Option.some m) :
    (execute_action actions action_nm params).2 = filledParams m params
    ∧ ∀ k, lookupKey (execute_action actions action_nm params).2 k =
        if k ∈ m.optional_params ∧ dictContains params k = false then
          Option.some PyVal.none
        else lookupKey params k := by
  have h2 : (execute_action actions action_nm params).2 = filledParams m params := by
    simp only [execute_action, hlk]
    by_cases h : missingRequired m params = []
    · simp only [h, ne_eq, not_true_eq_false, if_false]
      cases hc : m.call (callArgs m params) <;> simp
    · simp [h]
  refine ⟨h2, fun k => ?_⟩
  rw [h2, lookupKey_filledParams]

/-- Witness for C10: the sample action called with only `a` bound leaves the
caller's dict with the omitted optional `b` appended bound to `None`, even
though here the call succeeds; with an empty dict the call errors on the
missing `a` and the dict still gains the `None` binding for `b`. -/
theorem C10_params_mutated_in_place_witness :
    (execute_action sampleRegistry "doit" [("a", PyVal.str "v")]).2 =
      [("a", PyVal.str "v"), ("b", PyVal.none)]
    ∧ (execute_action sampleRegistry "doit" []).2 = [("b", PyVal.none)] := by
  have h1 := C10_params_mutated_in_place sampleRegistry "doit"
    [("a", PyVal.str "v")] sampleMethod rfl
  have h2 := C10_params_mutated_in_place sampleRegistry "doit" [] sampleMethod rfl
  exact ⟨h1.1.trans (by decide), h2.1.trans (by decide)⟩

/-- C6: for a registered decorator-built action whose validation passes,
`execute_action` invokes the method on the filtered keyword-argument dict, in
which every optional parameter omitted by the caller is bound to an explicit
`None` and every optional parameter has some binding. -/
theorem C6_omitted_optionals_bound_none (nm : Option String)
    (desc func_name : String) (sig : List Param)
    (func : Params → Except String PyVal) (actions : Registry)
    (action_nm : String) (params : Params) (m : ActionMethod)
    (hm : m = action nm desc func_name sig func)
    (hlk : lookupKey actions action_nm = Option.some m)
    (hmiss : missingRequired m params = []) :
    (∀ p, p ∈ m.optional_params → dictContains params p = false →
        lookupKey (callArgs m params) p = Option.some PyVal.none)
    ∧ (∀ p, p ∈ m.optional_params →
        (lookupKey (callArgs m params) p).isSome = true)
    ∧ (execute_action actions action_nm params).1 =
        (match m.call (callArgs m params) with
          | Except.ok v => ActionResult.success v
          | Except.error e => ActionResult.error e) := by
  have hsub : ∀ p, p ∈ m.optional_params → p ∈ m.all_params := by
    rw [hm]; exact optional_subset_all nm desc func_name sig func
  have hargs : ∀ p, p ∈ m.optional_params →
      lookupKey (callArgs m params) p = lookupKey (filledParams m params) p := by
    intro p hp
    unfold callArgs
    rw [lookupKey_filterKeys, if_pos ((contains_iff_mem _ _).mpr (hsub p hp))]
  refine ⟨?_, ?_, ?_⟩
  · intro p hp habs
    rw [hargs p hp, lookupKey_filledParams, if_pos ⟨hp, habs⟩]
  · intro p hp
    rw [hargs p hp, lookupKey_filledParams]
    by_cases habs : dictContains params p = false
    · rw [if_pos ⟨hp, habs⟩]; rfl
    · rw [if_neg (fun hc => habs hc.2)]
      have : dictContains params p = true := by
        cases h : dictContains params p
        · exact absurd h habs
        · rfl
      simpa [dictContains] using this
  · simp only [execute_action, hlk, hmiss]
    cases hc : m.call (callArgs m params) <;> simp [hc]

/-- Witness for C6: the sample action called with only `a` receives the
omitted optional `b` bound to `None` and succeeds. -/
theorem C6_omitted_optionals_bound_none_witness :
    lookupKey (callArgs sampleMethod [("a", PyVal.str "v")]) "b" =
      Option.some PyVal.none
    ∧ (execute_action sampleRegistry "doit" [("a", PyVal.str "v")]).1 =
      ActionResult.success (PyVal.int 7) := by
  have h := C6_omitted_optionals_bound_none Option.none "adds things" "doit"
    sampleSig stubOk sampleRegistry "doit" [("a", PyVal.str "v")] sampleMethod
    rfl rfl (by decide)
  exact ⟨h.1 "b" (by decide) (by decide), h.2.2.trans (by decide)⟩

/-- C7: for a registered decorator-built action and a params map whose keys
are exactly the required parameters, validation passes, each required
parameter is forwarded with the caller's value, and a normal return value `v`
of the method is wrapped unmodified as `{status: success, data: v}`. -/
theorem C7_success_wraps_return (nm : Option String) (desc func_name : String)
    (sig : List Param) (func : Params → Except String PyVal)
    (actions : Registry) (action_nm : String) (params : Params)
    (m : ActionMethod) (hm : m = action nm desc func_name sig func)
    (hlk : lookupKey actions action_nm = Option.some m)
    (hkeys : ∀ k, dictContains params k = true ↔ k ∈ m.required_params) :
    (∀ k, k ∈ m.required_params →
        lookupKey (callArgs m params) k = lookupKey params k)
    ∧ (∀ v, m.call (callArgs m params) = Except.ok v →
        (execute_action actions action_nm params).1 = ActionResult.success v) := by
  have hsub : ∀ p, p ∈ m.required_params → p ∈ m.all_params := by
    rw [hm]; exact required_subset_all nm desc func_name sig func
  have hfill : ∀ k, k ∈ m.required_params →
      lookupKey (filledParams m params) k = lookupKey params k := by
    intro k hk
    rw [lookupKey_filledParams,
      if_neg (fun hc => by rw [(hkeys k).mpr hk] at hc; exact absurd hc.2 (by simp))]
  have hmiss : missingRequired m params = [] := by
    unfold missingRequired
    rw [List.filter_eq_nil_iff]
    intro p hp
    rw [Bool.not_eq_true', Bool.not_eq_false]
    unfold dictContains
    rw [hfill p hp]
    have : dictContains params p = true := (hkeys p).mpr hp
    simpa [dictContains] using this
  constructor
  · intro k hk
    unfold callArgs
    rw [lookupKey_filterKeys, if_pos ((contains_iff_mem _ _).mpr (hsub k hk)),
      hfill k hk]
  · intro v hcall
    simp [execute_action, hlk, hmiss, hcall]

/-- Witness for C7: the sample action called with exactly its required
parameter `a` forwards `a` unchanged and succeeds with the stub's value 7. -/
theorem C7_success_wraps_return_witness :
    lookupKey (callArgs sampleMethod [("a", PyVal.str "v")]) "a" =
      Option.some (PyVal.str "v")
    ∧ (execute_action sampleRegistry "doit" [("a", PyVal.str "v")]).1 =
      ActionResult.success (PyVal.int 7) := by
  have hkeys : ∀ k, dictContains [("a", PyVal.str "v")] k = true ↔
      k ∈ sampleMethod.required_params := by
    intro k
    have hreq : sampleMethod.required_params = ["a"] := by decide
    rw [hreq]
    by_cases h : "a" = k
    · rw [← h]; decide
    · have h2 : ¬ k = "a" := fun hc => h hc.symm
      simp [dictContains, lookupKey, h, h2]
  have h := C7_success_wraps_return Option.none "adds things" "doit" sampleSig
    stubOk sampleRegistry "doit" [("a", PyVal.str "v")] sampleMethod rfl rfl hkeys
  exact ⟨(h.1 "a" (by decide)).trans (by decide), h.2 (PyVal.int 7) rfl⟩

theorem execute_fst_congr (actions : Registry) (action_nm : String)
    (params1 params2 : Params) (m : ActionMethod)
    (hlk : lookupKey actions action_nm = Option.some m)
    (hmq : missingRequired m params1 = missingRequired m params2)
    (hca : callArgs m params1 = callArgs m params2) :
    (execute_action actions action_nm params1).1 =
      (execute_action actions action_nm params2).1 := by
  simp only [execute_action, hlk]
  rw [hmq, hca]
  by_cases h : missingRequired m params2 = []
  · simp only [h, ne_eq, not_true_eq_false, if_false]
    cases hc : m.call (callArgs m params2) <;> simp [hc]
  · simp [h]

/-- C8: request keys that are not declared parameters of the action are
silently dropped: they receive no binding in the keyword arguments passed to
the method, and the result envelope is the same as if the caller had never
passed them. -/
theorem C8_extra_keys_dropped (nm : Option String) (desc func_name : String)
    (sig : List Param) (func : Params → Except String PyVal)
    (actions : Registry) (action_nm : String) (params : Params)
    (m : ActionMethod) (hm : m = action nm desc func_name sig func)
    (hlk : lookupKey actions action_nm = Option.some m) :
    (∀ k, k ∉ m.all_params → lookupKey (callArgs m params) k = Option.none)
    ∧ (execute_action actions action_nm params).1 =
      (execute_action actions action_nm
        (params.filter (fun kv => m.all_params.contains kv.1))).1 := by
  have hosub : ∀ p, p ∈ m.optional_params → p ∈ m.all_params := by
    rw [hm]; exact optional_subset_all nm desc func_name sig func
  have hrsub : ∀ p, p ∈ m.required_params → p ∈ m.all_params := by
    rw [hm]; exact required_subset_all nm desc func_name sig func
  set P2 := params.filter (fun kv => m.all_params.contains kv.1) with hP2
  have hlkP : ∀ p, p ∈ m.all_params → lookupKey P2 p = lookupKey params p := by
    intro p hp
    rw [hP2, lookupKey_filterKeys, if_pos ((contains_iff_mem _ _).mpr hp)]
  have hcont : ∀ p, p ∈ m.all_params →
      dictContains P2 p = dictContains params p := by
    intro p hp
    unfold dictContains
    rw [hlkP p hp]
  have hL : m.optional_params.filter (fun p => !(dictContains P2 p)) =
      m.optional_params.filter (fun p => !(dictContains params p)) := by
    apply List.filter_congr
    intro p hp
    rw [hcont p (hosub p hp)]
  have hLall : ∀ p,
      p ∈ m.optional_params.filter (fun q => !(dictContains params q)) →
      m.all_params.contains p = true := by
    intro p hp
    exact (contains_iff_mem _ _).mpr (hosub p (List.mem_of_mem_filter hp))
  have hfill2 : filledParams m P2 =
      (m.optional_params.filter (fun q => !(dictContains params q))).foldl
        (fun ps p => dictInsert ps p PyVal.none) P2 := by
    unfold filledParams
    rw [hL]
  have hP2self : P2.filter (fun kv => m.all_params.contains kv.1) = P2 := by
    rw [hP2, List.filter_filter]
    apply List.filter_congr
    intro kv _
    simp
  have hargs : callArgs m params = callArgs m P2 := by
    unfold callArgs
    rw [hfill2]
    unfold filledParams
    rw [filterKeys_foldl_insertNone _ _ _ hLall,
      filterKeys_foldl_insertNone _ _ _ hLall, hP2self]
  have hmisseq : missingRequired m params = missingRequired m P2 := by
    unfold missingRequired
    apply List.filter_congr
    intro p hp
    have hpall : p ∈ m.all_params := hrsub p hp
    congr 1
    unfold dictContains
    rw [hfill2]
    unfold filledParams
    rw [lookupKey_foldl_insertNone, lookupKey_foldl_insertNone]
    by_cases hmem : p ∈ m.optional_params.filter (fun q => !(dictContains params q))
    · rw [if_pos hmem, if_pos hmem]
    · rw [if_neg hmem, if_neg hmem, hlkP p hpall]
  refine ⟨?_, ?_⟩
  · intro k hk
    unfold callArgs
    rw [lookupKey_filterKeys,
      if_neg (fun hc => hk ((contains_iff_mem _ _).mp hc))]
  · exact execute_fst_congr actions action_nm params P2 m hlk hmisseq hargs

/-- Witness for C8: calling the sample action with the undeclared extra key
`zz` gives it no binding in the forwarded arguments and still succeeds with
the same envelope as without it. -/
theorem C8_extra_keys_dropped_witness :
    lookupKey (callArgs sampleMethod [("a", PyVal.str "v"), ("zz", PyVal.int 9)])
      "zz" = Option.none
    ∧ (execute_action sampleRegistry "doit"
        [("a", PyVal.str "v"), ("zz", PyVal.int 9)]).1 =
      ActionResult.success (PyVal.int 7) := by
  have h := C8_extra_keys_dropped Option.none "adds things" "doit" sampleSig
    stubOk sampleRegistry "doit" [("a", PyVal.str "v"), ("zz", PyVal.int 9)]
    sampleMethod rfl rfl
  exact ⟨h.1 "zz" (by decide), h.2.trans (by decide)⟩

theorem originInOptionalNoneSet_iff (o : OriginVal) :
    originInOptionalNoneSet o = true ↔ o = OriginVal.pyNone := by
  cases o <;> simp [originInOptionalNoneSet]

/-- C1 counterexample: for `act(self, x: str = "d")` the spec's rule makes
`x` optional (it has a default value and no optional wrapper type), but the
decorator's optional set, computed as the parameters whose
`get_origin(annotation)` is outside `{Optional, None}`, is empty. -/
theorem C1_counterexample :
    ¬ (cexMethod.optional_params =
      ((cexSig.drop 1).filter specOptional).map (fun p => p.name)) := by
  decide

/-- C1 amended: a parameter (excluding the receiver) is classified required
exactly when it has no default value and `typing.get_origin` of its declared
annotation is `None` (absent or unsubscripted annotation), and optional
exactly when `get_origin` of its annotation is not `None` (any subscripted
generic, `Optional` or not), regardless of default. -/
theorem C1_classification_by_get_origin (nm : Option String)
    (desc func_name : String) (sig : List Param)
    (func : Params → Except String PyVal) (p : String) :
    (p ∈ (action nm desc func_name sig func).required_params ↔
      ∃ pm, pm ∈ sig.drop 1 ∧ pm.name = p ∧ pm.default = Option.none ∧
        get_origin pm.ann = OriginVal.pyNone)
    ∧ (p ∈ (action nm desc func_name sig func).optional_params ↔
      ∃ pm, pm ∈ sig.drop 1 ∧ pm.name = p ∧
        ¬ get_origin pm.ann = OriginVal.pyNone) := by
  constructor
  · rw [mem_required_action]
    constructor <;> rintro ⟨pm, h1, h2, h3, h4⟩
    · exact ⟨pm, h1, h2, h3, (originInOptionalNoneSet_iff _).mp h4⟩
    · exact ⟨pm, h1, h2, h3, (originInOptionalNoneSet_iff _).mpr h4⟩
  · rw [mem_optional_action]
    constructor <;> rintro ⟨pm, h1, h2, h3⟩
    · refine ⟨pm, h1, h2, fun hc => ?_⟩
      rw [hc] at h3
      simp [originInOptionalNoneSet] at h3
    · refine ⟨pm, h1, h2, ?_⟩
      cases hgo : get_origin pm.ann with
      | pyNone => exact absurd hgo h3
      | unionForm => rfl
      | cls o => rfl

/-- Witness for C1 (amended): in the sample signature, `b : Optional[str]`
with no default is optional because its `get_origin` is `typing.Union`,
not `None`. -/
theorem C1_classification_by_get_origin_witness :
    "b" ∈ sampleMethod.optional_params :=
  ((C1_classification_by_get_origin Option.none "adds things" "doit" sampleSig
    stubOk "b").2).mpr
    ⟨{ name := "b", ann := Ann.optionalOf "str", default := Option.none },
      by decide, rfl, by decide⟩

/-- C2 counterexample: for `act(self, x: str = "d")` the parameter `x` is in
the declared parameter list but in neither the required nor the optional set,
so the two sets do not partition the list. -/
theorem C2_counterexample :
    "x" ∈ cexMethod.all_params ∧ "x" ∉ cexMethod.required_params ∧
      "x" ∉ cexMethod.optional_params := by
  decide

theorem paramInfo_names_map (req : List String) (l : List String) :
    (l.map (fun param =>
      if req.contains param then
        ({ name := param, optional := false } : ParamInfo)
      else { name := param, optional := true })).map (fun e => e.name) = l := by
  induction l with
  | nil => rfl
  | cons a l ih =>
      simp only [List.map_cons]
      by_cases h : req.contains a
      · rw [if_pos h, ih]
      · rw [if_neg h, ih]

theorem actionInfo_param_names (m : ActionMethod) :
    ((actionInfoOf m).params.getD []).map (fun e => e.name) = m.all_params := by
  by_cases h : m.all_params = []
  · simp [actionInfoOf, h]
  · have hmapne : m.all_params.map (fun param =>
        if m.required_params.contains param then
          ({ name := param, optional := false } : ParamInfo)
        else { name := param, optional := true }) ≠ [] := by
      simpa using h
    simp only [actionInfoOf]
    rw [if_pos hmapne]
    simpa using paramInfo_names_map m.required_params m.all_params

/-- C2 amended: for a decorator-built action with distinct parameter names,
the required and optional sets are disjoint subsets of the declared parameter
list, but they need not cover it (see the counterexample); the parameter list
shown by `available_actions()` equals the full declared list, a superset of
the union of the two sets. -/
theorem C2_partition_amended (nm : Option String) (desc func_name : String)
    (sig : List Param) (func : Params → Except String PyVal)
    (actions : Registry) (action_nm : String)
    (hnd : ((sig.drop 1).map (fun p => p.name)).Nodup)
    (hlk : lookupKey actions action_nm =
      Option.some (action nm desc func_name sig func)) :
    (∀ p, p ∈ (action nm desc func_name sig func).required_params →
      p ∉ (action nm desc func_name sig func).optional_params)
    ∧ (∀ p, p ∈ (action nm desc func_name sig func).required_params →
      p ∈ (action nm desc func_name sig func).all_params)
    ∧ (∀ p, p ∈ (action nm desc func_name sig func).optional_params →
      p ∈ (action nm desc func_name sig func).all_params)
    ∧ ∃ info, lookupKey (available_actions actions) action_nm =
        Option.some info ∧
      (info.params.getD []).map (fun e => e.name) =
        (action nm desc func_name sig func).all_params := by
  refine ⟨?_, required_subset_all nm desc func_name sig func,
    optional_subset_all nm desc func_name sig func,
    actionInfoOf (action nm desc func_name sig func), ?_,
    actionInfo_param_names _⟩
  · intro p hr ho
    rcases (mem_required_action nm desc func_name sig func p).mp hr with
      ⟨pm, hm1, hn1, _, hf1⟩
    rcases (mem_optional_action nm desc func_name sig func p).mp ho with
      ⟨pm2, hm2, hn2, hf2⟩
    have heq : pm = pm2 :=
      List.inj_on_of_nodup_map hnd hm1 hm2 (by rw [hn1, hn2])
    rw [heq, hf2] at hf1
    exact Bool.false_ne_true hf1
  · rw [lookupKey_available_actions, hlk]
    rfl

/-- Witness for C2 (amended) at the sample action: its required parameter
`a` is in the declared list and not in the optional set. -/
theorem C2_partition_amended_witness :
    "a" ∈ sampleMethod.all_params ∧ "a" ∉ sampleMethod.optional_params := by
  have h := C2_partition_amended Option.none "adds things" "doit" sampleSig
    stubOk sampleRegistry "doit" (by decide) rfl
  exact ⟨by decide, h.1 "a" (by decide)⟩

/-- C9 counterexample: for `act(self, x: str = "d")` the listing entry for
`x` carries `optional: true`, yet `x` is not in the action's optional set
(which is empty): the flag marks "not required", not "in the optional set". -/
theorem C9_counterexample :
    lookupKey (available_actions cexRegistry) "act" =
      Option.some { description := "demo",
                    params :=
                      Option.some [{ name := "x", optional := true }] }
    ∧ "x" ∉ cexMethod.optional_params := by
  exact ⟨by decide, by decide⟩

/-- C9 amended: `available_actions()` returns exactly one record per
registered action (keys in registry order); the record holds the action's
description; the `params` key is omitted exactly when the action takes no
parameters; the entries list the full declared parameter list in order; and
an entry carries `optional: true` exactly when its parameter is NOT in the
required set (which can include parameters outside the optional set). -/
theorem C9_listing_amended (actions : Registry) (action_nm : String)
    (m : ActionMethod) (hlk : lookupKey actions action_nm = Option.some m) :
    ((available_actions actions).map (fun e => e.1) =
      actions.map (fun e => e.1))
    ∧ ∃ info, lookupKey (available_actions actions) action_nm =
        Option.some info ∧
      info.description = m.description ∧
      (info.params = Option.none ↔ m.all_params = []) ∧
      (info.params.getD []).map (fun e => e.name) = m.all_params ∧
      ∀ e, e ∈ info.params.getD [] →
        (e.optional = true ↔ m.required_params.contains e.name = false) := by
  refine ⟨?_, actionInfoOf m, ?_, rfl, ?_, actionInfo_param_names m, ?_⟩
  · simp [available_actions]
  · rw [lookupKey_available_actions, hlk]
    rfl
  · by_cases h : m.all_params = []
    · simp [actionInfoOf, h]
    · have hmapne : m.all_params.map (fun param =>
          if m.required_params.contains param then
            ({ name := param, optional := false } : ParamInfo)
          else { name := param, optional := true }) ≠ [] := by
        simpa using h
      simp only [actionInfoOf]
      rw [if_pos hmapne]
      simp [h]
  · intro e he
    by_cases h : m.all_params = []
    · simp [actionInfoOf, h] at he
    · have hmapne : m.all_params.map (fun param =>
          if m.required_params.contains param then
            ({ name := param, optional := false } : ParamInfo)
          else { name := param, optional := true }) ≠ [] := by
        simpa using h
      simp only [actionInfoOf] at he
      rw [if_pos hmapne] at he
      simp only [Option.getD_some] at he
      rcases List.mem_map.mp he with ⟨p, _, hpe⟩
      by_cases hc : m.required_params.contains p
      · rw [if_pos hc] at hpe
        rw [← hpe]
        exact ⟨fun hx => absurd hx (by simp),
          fun hx => absurd (hc.symm.trans hx) (by simp)⟩
      · have hcf : m.required_params.contains p = false := by
          rwa [Bool.not_eq_true] at hc
        rw [if_neg hc] at hpe
        rw [← hpe]
        exact ⟨fun _ => hcf, fun _ => rfl⟩

/-- Witness for C9 (amended): the sample registry lists exactly its one
action under its name. -/
theorem C9_listing_amended_witness :
    (available_actions sampleRegistry).map (fun e => e.1) = ["doit"] := by
  have h := C9_listing_amended sampleRegistry "doit" sampleMethod rfl
  exact h.1.trans (by decide)
